import Mathlib

/-!
Verification of the query-construction and result-reshaping engine of
`sqlite_database.py` (class `TableCon`).

The Python code is shallowly embedded: Python strings are Lean `String`s,
Python dicts are association lists operated on with insertion-order update
semantics (`dictInsert`), and the dynamically typed values accepted by
`insert`/`filter` are the inductive `Value`.  Statement execution is an
external collaborator (the sqlite3 module); functions that execute
statements are modelled as returning the list of statement texts they would
execute, and, where result rows matter, take the collaborator's answers as
parameters.
-/

/-! ## Python string primitives -/

/-- Characters stripped by Python `str.strip()` (the ASCII ones; the code
only ever strips the space character). -/
def pyIsSpace (c : Char) : Bool := c.isWhitespace || c = '\x0b' || c = '\x0c'

/-- Python `s.strip()`: drop leading and trailing whitespace. -/
def pyStripStr (s : String) : String :=
  String.mk (((s.data.dropWhile pyIsSpace).reverse.dropWhile pyIsSpace).reverse)

/-- Python `s[:-n]`.  For `n = 0` Python's `s[:-0] = s[:0]` is empty. -/
def pySliceToNeg (n : Nat) (s : String) : String :=
  if n = 0 then "" else String.mk (s.data.take (s.data.length - n))

/-- Helper for `pyReplaceStr`; the fuel argument is an upper bound on the
length of the remaining text, so the recursion is structural. -/
def pyReplaceAux (pat sub : List Char) : Nat → List Char → List Char
  | _, [] => []
  | 0, l => l
  | fuel + 1, c :: rest =>
    if pat.isPrefixOf (c :: rest) then
      sub ++ pyReplaceAux pat sub fuel (List.drop pat.length (c :: rest))
    else
      c :: pyReplaceAux pat sub fuel rest

/-- Python `s.replace(pat, sub)`: leftmost, non-overlapping occurrences.
The code only uses non-empty patterns; the empty pattern is left alone. -/
def pyReplaceStr (pat sub s : String) : String :=
  if pat.data.isEmpty then s
  else String.mk (pyReplaceAux pat.data sub.data s.data.length s.data)

/-- Concatenation of a list of strings (Python `"".join` / repeated `+=`). -/
def sJoin : List String → String
  | [] => ""
  | s :: rest => s ++ sJoin rest

/-- Python `sep.join(l)`. -/
def sIntercalate (sep : String) : List String → String
  | [] => ""
  | [s] => s
  | s :: rest => s ++ sep ++ sIntercalate sep rest

/-- Head character of a string exists and is not whitespace. -/
def headNonWS (s : String) : Bool :=
  match s.data with
  | [] => false
  | c :: _ => !(pyIsSpace c)

/-- Last character of a string exists and is not whitespace. -/
def lastNonWS (s : String) : Bool :=
  match s.data.reverse with
  | [] => false
  | c :: _ => !(pyIsSpace c)

/-! ## Python dict primitives

A Python dict is modelled as an association list in insertion order.
`dictInsert` is `d[k] = v`: it updates the value in place when the key is
present (keeping its position) and appends otherwise. -/

def dictLookup {α : Type} : List (String × α) → String → Option α
  | [], _ => none
  | kv :: rest, k => if kv.1 == k then some kv.2 else dictLookup rest k

def dictInsert {α : Type} : List (String × α) → String → α → List (String × α)
  | [], k, v => [(k, v)]
  | kv :: rest, k, v => if kv.1 == k then (k, v) :: rest else kv :: dictInsert rest k v

/-! ## Values

The dynamically typed values the Python code receives.  `vFloat` carries the
float's printed decimal representation: the code never computes with floats,
it only interpolates them into statement text with `%s`.  `vNone` stands for
any value that is none of str/int/float/list (e.g. `None`). -/

inductive Value where
  | vStr (s : String)
  | vInt (n : Int)
  | vFloat (r : String)
  | vNone
  | vList (l : List Value)

/-- Python `repr` of a string, as used when a list is `%s`-interpolated.
Quote selection follows Python (double quotes when the text holds a single
quote but no double quote); escaping of control characters is not modelled,
as no statement builder interpolates lists of such strings. -/
def pyReprStr (s : String) : String :=
  if s.data.contains '\'' && !(s.data.contains '"') then
    "\"" ++ s ++ "\""
  else
    "'" ++ String.mk (s.data.flatMap (fun c => if c = '\'' then ['\\', '\''] else [c])) ++ "'"

mutual
/-- Python `"%s" % v`: `str()` of a value. -/
def pyStrV : Value → String
  | .vStr s => s
  | .vInt n => toString n
  | .vFloat r => r
  | .vNone => "None"
  | .vList l => "[" ++ sIntercalate ", " (pyReprL l) ++ "]"

/-- Python `repr()` of a value, used for list elements under `str(list)`. -/
def pyReprV : Value → String
  | .vStr s => pyReprStr s
  | .vInt n => toString n
  | .vFloat r => r
  | .vNone => "None"
  | .vList l => "[" ++ sIntercalate ", " (pyReprL l) ++ "]"

def pyReprL : List Value → List String
  | [] => []
  | v :: vs => pyReprV v :: pyReprL vs
end

mutual
/-- Structural equality of values (Python `==` on these shapes). -/
def beqV : Value → Value → Bool
  | .vStr a, .vStr b => a == b
  | .vInt a, .vInt b => a == b
  | .vFloat a, .vFloat b => a == b
  | .vNone, .vNone => true
  | .vList a, .vList b => beqL a b
  | _, _ => false

def beqL : List Value → List Value → Bool
  | [], [] => true
  | a :: as, b :: bs => beqV a b && beqL as bs
  | _, _ => false
end

/-! ## The embedded source: `TableCon` (sqlite_database.py) -/

/-- The state of a `TableCon` object that the query builders read: the
database path, the default table, the debug flag and the persistent field
map (`self.field_map`).  The sqlite3 connection and cursor are the external
collaborator and carry no builder-visible state. -/
structure TableCon where
  db : String
  table : String
  debug : Bool
  field_map : List (String × String)

/-- Lines 56-61: `set_db` reopens the connection and records the path. -/
def set_db (tc : TableCon) (db : String) : TableCon := { tc with db := db }

/-- Lines 63-65: `set_table` records the default table. -/
def set_table (tc : TableCon) (t : String) : TableCon := { tc with table := t }

/-- Lines 89-92: `define_field_map` replaces the persistent field map. -/
def define_field_map (tc : TableCon) (m : List (String × String)) : TableCon :=
  { tc with field_map := m }

/-- Lookup of one name through the field map with identity fallback:
`self.field_map[k] if k in self.field_map else k` (lines 100, 104, 107). -/
def applyFieldMap (fm : List (String × String)) (k : String) : String :=
  match dictLookup fm k with
  | some v => v
  | none => k

/-- Lines 106-108: `map_field_names` on a single string. -/
def mapFieldNamesStr (fm : List (String × String)) (k : String) : String :=
  applyFieldMap fm k

/-- Lines 103-105: `map_field_names` on a list. -/
def mapFieldNamesList (fm : List (String × String)) (l : List String) : List String :=
  l.map (applyFieldMap fm)

/-- Lines 97-102: `map_field_names` on a dict builds a fresh dict by
assigning `mapped_dict[mapped_key] = v` entry by entry. -/
def mapFieldNamesDict {α : Type} (fm : List (String × String)) (d : List (String × α)) :
    List (String × α) :=
  d.foldl (fun acc kv => dictInsert acc (applyFieldMap fm kv.1) kv.2) []

/-- Lines 169-170: `_quote` is `"'%s'" % string` — it wraps the `%s`
rendering of ANY value, numeric or not, in single quotes. -/
def quoteV (v : Value) : String := "'" ++ pyStrV v ++ "'"

/-- Lines 172-173: `_bracket` is `"[%s]" % string`. -/
def bracketS (k : String) : String := "[" ++ k ++ "]"

/-- Python `s.replace("'", "''")` used by `_sanitise` on strings. -/
def sanitiseStr (s : String) : String := pyReplaceStr "'" "''" s

mutual
/-- Lines 175-181: `_sanitise` doubles single quotes in strings, recurses
into lists, and is the identity on everything else. -/
def sanitiseV : Value → Value
  | .vStr s => .vStr (sanitiseStr s)
  | .vList l => .vList (sanitiseL l)
  | .vInt n => .vInt n
  | .vFloat r => .vFloat r
  | .vNone => .vNone

def sanitiseL : List Value → List Value
  | [] => []
  | v :: vs => sanitiseV v :: sanitiseL vs
end

/-- Lines 134-147: `_query_insert_kwargs` maps the field names, then builds
the column list and the value list by appending `"[col]," `/`"'val',"` per
entry and slicing off the final comma of each with `[:-1]`. -/
def queryInsertKwargs (table : String) (fm : List (String × String))
    (kwargs : List (String × Value)) : String :=
  let m := mapFieldNamesDict fm kwargs
  let sql_col := m.foldl (fun acc kv => acc ++ bracketS kv.1 ++ ",")
    ("INSERT INTO " ++ table ++ " (")
  let sql_val := m.foldl (fun acc kv => acc ++ quoteV (sanitiseV kv.2) ++ ",")
    "VALUES ("
  pySliceToNeg 1 sql_col ++ ") " ++ pySliceToNeg 1 sql_val ++ ")"

/-- Lines 123-132: `_query_insert_args`, the positional insert form. -/
def queryInsertArgs (table : String) (args : List Value) : String :=
  pySliceToNeg 1
    (args.foldl (fun acc v => acc ++ quoteV (sanitiseV v) ++ ",")
      ("INSERT INTO " ++ table ++ " VALUES(")) ++ ")"

/-- Lines 110-121: `insert` rejects mixed positional/named arguments, else
builds the one statement it will execute. -/
def insertQuery (table : String) (fm : List (String × String))
    (args : List Value) (kwargs : List (String × Value)) : Except String String :=
  if args.length > 0 && kwargs.length > 0 then
    Except.error "Field map cannot be defined by both order and name"
  else if kwargs.length > 0 then
    Except.ok (queryInsertKwargs table fm kwargs)
  else
    Except.ok (queryInsertArgs table args)

/-- The statements `insert` executes: one on success, none when it raises
(the `raise` on line 114 precedes any call to `execute`). -/
def insertExec (table : String) (fm : List (String × String))
    (args : List Value) (kwargs : List (String × Value)) : List String :=
  match insertQuery table fm args kwargs with
  | .ok q => [q]
  | .error _ => []

/-- The `return_cols` argument of `filter`: a single name or a list
(lines 207-208 coerce a string to a one-element list). -/
inductive StrOrList where
  | single (s : String)
  | many (l : List String)

def coerceCols : StrOrList → List String
  | .single s => [s]
  | .many l => l

/-- Lines 213-217: the `SELECT [DISTINCT] [c1], [c2] FROM table ` part. -/
def selectPart (table : String) (rcm : List String) (distinct : Bool) : String :=
  "SELECT" ++ (if distinct then " DISTINCT " else "") ++
    "[" ++ sIntercalate "], [" rcm ++ "] " ++ "FROM " ++ table ++ " "

/-- A filter value is one of the supported types (str/list/int/float);
anything else hits the `else raise` on line 233. -/
def wellTypedV : Value → Bool
  | .vNone => false
  | _ => true

def wellTypedD (d : List (String × Value)) : Bool :=
  d.all (fun kv => wellTypedV kv.2)

/-- Lines 220-233: one iteration of the WHERE-building loop, appending
`"[k] = v BOOL "` per predicate (strings and list elements quoted and
sanitised, ints and floats bare) or raising on an unsupported type. -/
def whereStep (boolean : String) (acc : String) (kv : String × Value) :
    Except String String :=
  match kv.2 with
  | .vStr s =>
      Except.ok (acc ++ ("[" ++ kv.1 ++ "] = '" ++ sanitiseStr s ++ "'") ++ " " ++ boolean ++ " ")
  | .vList l =>
      Except.ok (acc ++ sJoin (l.map (fun v =>
        ("[" ++ kv.1 ++ "] = '" ++ pyStrV (sanitiseV v) ++ "'") ++ " " ++ boolean ++ " ")))
  | .vInt n =>
      Except.ok (acc ++ ("[" ++ kv.1 ++ "] = " ++ toString n) ++ " " ++ boolean ++ " ")
  | .vFloat r =>
      Except.ok (acc ++ ("[" ++ kv.1 ++ "] = " ++ r) ++ " " ++ boolean ++ " ")
  | .vNone =>
      Except.error ("Unsupported value type in key " ++ kv.1)

/-- Lines 207-236 of `filter`: the generated statement before the `[*]`
substitution.  After a non-empty WHERE loop the code strips the query and
slices off `len(boolean)` characters to drop the trailing join keyword. -/
def buildFilterQueryRaw (table : String) (fm : List (String × String))
    (filters : List (String × Value)) (rcs : StrOrList)
    (boolean : String) (distinct : Bool) : Except String String :=
  let filters_map := mapFieldNamesDict fm filters
  let return_cols_map := mapFieldNamesList fm (coerceCols rcs)
  let q0 := selectPart table return_cols_map distinct
  if filters_map.isEmpty then Except.ok q0
  else
    match List.foldlM (whereStep boolean) (q0 ++ "WHERE ") filters_map with
    | .error e => Except.error e
    | .ok q1 => Except.ok (pySliceToNeg boolean.length (pyStripStr q1))

/-- Line 237: `query = query.replace("[*]", "*")`. -/
def buildFilterQuery (table : String) (fm : List (String × String))
    (filters : List (String × Value)) (rcs : StrOrList)
    (boolean : String) (distinct : Bool) : Except String String :=
  match buildFilterQueryRaw table fm filters rcs boolean distinct with
  | .error e => Except.error e
  | .ok q => Except.ok (pyReplaceStr "[*]" "*" q)

/-- Line 69: the statement `get_columns` executes. -/
def pragmaQuery (t : String) : String := "PRAGMA table_info(" ++ t ++ ")"

/-- Lines 240-247: expand each `"*"` in the mapped return columns into the
full schema column list (in schema order), keeping other names in place. -/
def resolveWildcard (rcm : List String) (schema : List String) : List String :=
  rcm.foldl (fun acc c => if c = "*" then acc ++ schema else acc ++ [c]) []

/-- Python `zip(*rows)` (line 253): truncating transpose, empty on no rows. -/
def minRowLen : List (List Value) → Nat
  | [] => 0
  | r :: rs => rs.foldl (fun m r2 => min m r2.length) r.length

def pyZipStar (rows : List (List Value)) : List (List Value) :=
  (List.range (minRowLen rows)).map (fun i => rows.map (fun r => r.getD i Value.vNone))

/-- Python list indexing, raising IndexError out of range. -/
def pyIndex {α : Type} (l : List α) (i : Nat) : Except String α :=
  match l.get? i with
  | some x => Except.ok x
  | none => Except.error "IndexError: list index out of range"

/-- Line 256-257: `{return_cols[i]: [] for i in range(len(return_cols))}`. -/
def emptyColumnsDict (return_cols : List String) : List (String × List Value) :=
  return_cols.foldl (fun d c => dictInsert d c []) []

/-- The three result shapes of `filter`. -/
inductive Shaped where
  | columns (d : List (String × List Value))
  | rows (r : List (List Value))
  | rowdict (l : List (List (String × Value)))

/-- Lines 250-268: reshape the raw rows per the `rc` token, or raise the
invalid-shape error. -/
def shapeResult (rc : String) (return_cols : List String)
    (results : List (List Value)) : Except String Shaped :=
  if rc = "columns" then
    let pv := pyZipStar results
    if pv.isEmpty then
      Except.ok (Shaped.columns (emptyColumnsDict return_cols))
    else
      match (return_cols.enum).foldlM
          (fun d kv => (pyIndex pv kv.1).map (fun vals => dictInsert d kv.2 vals))
          ([] : List (String × List Value)) with
      | .error e => Except.error e
      | .ok d => Except.ok (Shaped.columns d)
  else if rc = "rows" then
    Except.ok (Shaped.rows (results.map (fun row => row)))
  else if rc = "rowdict" then
    match results.mapM (fun row => (return_cols.enum).foldlM
        (fun d kv => (pyIndex row kv.1).map (fun v => dictInsert d kv.2 v))
        ([] : List (String × Value))) with
    | .error e => Except.error e
    | .ok l => Except.ok (Shaped.rowdict l)
  else
    Except.error "Invalid shape specified. rc must be one of 'rows' or 'columns'."

/-- Lines 199-268: the whole of `filter` as a trace.  `exec` is the external
collaborator's answer to an executed SELECT; `schema` is its answer to
`PRAGMA table_info` (the ordered column names of the table).  The first
component lists the statements executed in order: the SELECT, then one
PRAGMA per `"*"` in the mapped return columns; a ValueError raised while
building the WHERE clause executes nothing. -/
def filterRun (tc : TableCon) (exec : String → List (List Value))
    (schema : List String) (filters : List (String × Value)) (rcs : StrOrList)
    (rc : String) (boolean : String) (distinct : Bool) :
    List String × Except String Shaped :=
  match buildFilterQuery tc.table tc.field_map filters rcs boolean distinct with
  | .error e => ([], Except.error e)
  | .ok q =>
      let results := exec q
      let rcm := mapFieldNamesList tc.field_map (coerceCols rcs)
      let executed := q :: (rcm.filter (fun c => c == "*")).map (fun _ => pragmaQuery tc.table)
      (executed, shapeResult rc (resolveWildcard rcm schema) results)

/-! ## Connection-level operation traces (for the frame claim) -/

/-- A `TableCon` object together with the list of statements executed so
far against the collaborator. -/
structure World where
  tc : TableCon
  log : List String

/-- The operations on a connection object the spec's frame claim ranges
over. -/
inductive Op where
  | opSetDb (db : String)
  | opSetTable (t : String)
  | opDefineFieldMap (m : List (String × String))
  | opInsert (args : List Value) (kwargs : List (String × Value))
  | opFilter (filters : List (String × Value)) (rcs : StrOrList)
      (rc : String) (boolean : String) (distinct : Bool)

def isDefineOp : Op → Bool
  | .opDefineFieldMap _ => true
  | _ => false

def stepOp (exec : String → List (List Value)) (schema : List String)
    (w : World) : Op → World
  | .opSetDb d => { w with tc := set_db w.tc d }
  | .opSetTable t => { w with tc := set_table w.tc t }
  | .opDefineFieldMap m => { w with tc := define_field_map w.tc m }
  | .opInsert args kwargs =>
      { w with log := w.log ++ insertExec w.tc.table w.tc.field_map args kwargs }
  | .opFilter filters rcs rc boolean distinct =>
      { w with log := w.log ++ (filterRun w.tc exec schema filters rcs rc boolean distinct).1 }

def runOps (exec : String → List (List Value)) (schema : List String)
    (w : World) (ops : List Op) : World :=
  ops.foldl (stepOp exec schema) w

/-! ## Semantic model of the external SELECT (for the wildcard claim)

Modelled from the spec's collaborator contract (§6): `execute` on the
emitted single-table SELECT returns, for each surviving row, the tuple of
the requested columns' values, with `*` standing for all schema columns in
order, and DISTINCT deduplicating while preserving first-occurrence order.
The WHERE clause's row predicate is abstracted as `keep`, the same function
of the filter spec on every call that passes the same spec. -/

def projectRow (schema : List String) (cols : List String) (row : List Value) :
    List Value :=
  cols.map (fun c => row.getD (schema.indexOf c) Value.vNone)

def pyDedup (l : List (List Value)) : List (List Value) :=
  l.foldl (fun acc x => if acc.any (fun y => beqL y x) then acc else acc ++ [x]) []

def semExecuteSelect (schema : List String) (tableRows : List (List Value))
    (keep : List Value → Bool) (distinct : Bool) (cols : List String) :
    List (List Value) :=
  let chosen := tableRows.filter keep
  let proj := chosen.map (projectRow schema (resolveWildcard cols schema))
  if distinct then pyDedup proj else proj

/-- The filter pipeline with the external SELECT interpreted semantically:
map the return columns, execute, resolve the wildcard, reshape. -/
def semFilter (schema : List String) (tableRows : List (List Value))
    (keep : List Value → Bool) (distinct : Bool) (fm : List (String × String))
    (rcs : StrOrList) (rc : String) : Except String Shaped :=
  let rcm := mapFieldNamesList fm (coerceCols rcs)
  shapeResult rc (resolveWildcard rcm schema)
    (semExecuteSelect schema tableRows keep distinct rcm)

/-- Claim scratch: the number of equality predicates each mapped filter
entry contributes (one per scalar, one per list element). -/
def predsOfEntry (k : String) : Value → List String
  | .vStr s => ["[" ++ k ++ "] = '" ++ sanitiseStr s ++ "'"]
  | .vList l => l.map (fun v => "[" ++ k ++ "] = '" ++ pyStrV (sanitiseV v) ++ "'")
  | .vInt n => ["[" ++ k ++ "] = " ++ toString n]
  | .vFloat r => ["[" ++ k ++ "] = " ++ r]
  | .vNone => []

/-- The equality predicates of a filter spec, in emission order. -/
def wherePreds (fm : List (String × String)) (filters : List (String × Value)) :
    List String :=
  (filters.map (fun kv => predsOfEntry (applyFieldMap fm kv.1) kv.2)).flatten

/-- Scalar entries count one predicate; list entries count their length. -/
def predCount (filters : List (String × Value)) : Nat :=
  (filters.map (fun kv =>
    match kv.2 with
    | .vList l => l.length
    | _ => 1)).sum

/-! ## Helper lemmas: strings -/

theorem sJoin_append (a b : List String) : sJoin (a ++ b) = sJoin a ++ sJoin b := by
  induction a with
  | nil => simp [sJoin]
  | cons x xs ih => simp [sJoin, ih, String.append_assoc]

theorem sJoin_map_sep (sep : String) (l : List String) (h : l ≠ []) :
    sJoin (l.map (fun s => s ++ sep)) = sIntercalate sep l ++ sep := by
  induction l with
  | nil => exact absurd rfl h
  | cons x xs ih =>
    cases xs with
    | nil => simp [sJoin, sIntercalate, String.append_empty]
    | cons y ys =>
      have := ih (by simp)
      simp only [List.map, sJoin, sIntercalate] at this ⊢
      rw [this]
      simp [String.append_assoc]

theorem foldl_acc_two {α : Type} (f g : α → String) (l : List α) (init : String) :
    l.foldl (fun acc x => acc ++ f x ++ g x) init
      = init ++ sJoin (l.map (fun x => f x ++ g x)) := by
  induction l generalizing init with
  | nil => simp [sJoin, String.append_empty]
  | cons x xs ih =>
    simp only [List.foldl, List.map, sJoin]
    rw [ih]
    simp [String.append_assoc]

theorem pySliceToNeg_append (x y : String) (hy : y.length ≠ 0) :
    pySliceToNeg y.length (x ++ y) = x := by
  unfold pySliceToNeg
  rw [if_neg hy]
  apply String.ext
  show (x ++ y).data.take ((x ++ y).data.length - y.length) = x.data
  rw [String.data_append, List.length_append]
  have h1 : x.data.length + y.data.length - y.length = x.data.length := by
    have h2 : y.length = y.data.length := rfl
    omega
  rw [h1, List.take_left]

theorem headNonWS_append (a b : String) (h : headNonWS a = true) :
    headNonWS (a ++ b) = true := by
  unfold headNonWS at h ⊢
  rw [String.data_append]
  cases hc : a.data with
  | nil => rw [hc] at h; simp at h
  | cons c cs => rw [hc] at h; simp at h ⊢; exact h

theorem lastNonWS_ne_empty (b : String) (h : lastNonWS b = true) : b.length ≠ 0 := by
  unfold lastNonWS at h
  cases hc : b.data.reverse with
  | nil => rw [hc] at h; simp at h
  | cons c cs =>
    intro h0
    have hnil : b.data = [] := List.eq_nil_of_length_eq_zero h0
    rw [hnil] at hc
    simp at hc

theorem dropWhile_head_false {p : Char → Bool} {c : Char} {l : List Char}
    (h : p c = false) : (c :: l).dropWhile p = c :: l := by
  simp [List.dropWhile_cons, h]

theorem pyStripStr_append_sep (x B : String) (hx : headNonWS x = true)
    (hB : lastNonWS B = true) : pyStripStr (x ++ B ++ " ") = x ++ B := by
  unfold headNonWS at hx
  unfold lastNonWS at hB
  apply String.ext
  show (((x ++ B ++ " ").data.dropWhile pyIsSpace).reverse.dropWhile pyIsSpace).reverse
      = (x ++ B).data
  have hd : (x ++ B ++ " ").data = x.data ++ B.data ++ [' '] := by
    rw [String.data_append, String.data_append]
  have hd2 : (x ++ B).data = x.data ++ B.data := String.data_append x B
  rw [hd, hd2]
  cases hxc : x.data with
  | nil => rw [hxc] at hx; simp at hx
  | cons c cs =>
    rw [hxc] at hx
    simp only [Bool.not_eq_true'] at hx
    cases hBc : B.data.reverse with
    | nil => rw [hBc] at hB; simp at hB
    | cons d ds =>
      rw [hBc] at hB
      simp only [Bool.not_eq_true'] at hB
      simp only [List.cons_append, List.append_assoc]
      rw [dropWhile_head_false hx]
      have hrev : (c :: (cs ++ (B.data ++ [' ']))).reverse
          = ' ' :: (B.data.reverse ++ (cs.reverse ++ [c])) := by
        simp [List.reverse_append, List.append_assoc]
      rw [hrev, List.dropWhile_cons, if_pos (by decide), hBc, List.cons_append]
      rw [dropWhile_head_false hB]
      rw [← List.cons_append, ← hBc]
      simp [List.reverse_append, List.append_assoc]

/-! ## Helper lemmas: dicts and field-name mapping -/

theorem dictLookup_insert {α : Type} (d : List (String × α)) (k c : String) (v : α) :
    dictLookup (dictInsert d k v) c = if k == c then some v else dictLookup d c := by
  induction d with
  | nil => simp [dictInsert, dictLookup]
  | cons kv rest ih =>
    rcases kv with ⟨k1, v1⟩
    by_cases h1 : k1 = k
    · subst h1
      by_cases h2 : k1 = c
      · subst h2
        simp [dictInsert, dictLookup]
      · have h2b : (k1 == c) = false := by simpa using h2
        simp [dictInsert, dictLookup, h2b]
    · have h1b : (k1 == k) = false := by simpa using h1
      by_cases h2 : k1 = c
      · subst h2
        have h3 : (k == k1) = false := by simpa using fun h => h1 h.symm
        simp [dictInsert, dictLookup, h1b, h3]
      · have h2b : (k1 == c) = false := by simpa using h2
        simp [dictInsert, dictLookup, h1b, h2b, ih]

theorem dictInsert_fresh {α : Type} (d : List (String × α)) (k : String) (v : α)
    (h : dictLookup d k = none) : dictInsert d k v = d ++ [(k, v)] := by
  induction d with
  | nil => simp [dictInsert]
  | cons kv rest ih =>
    simp only [dictLookup] at h
    by_cases h1 : kv.1 == k
    · rw [if_pos h1] at h; simp at h
    · rw [if_neg h1] at h
      simp [dictInsert, h1, ih h]

theorem dictLookup_append {α : Type} (d e : List (String × α)) (k : String) :
    dictLookup (d ++ e) k =
      match dictLookup d k with
      | some v => some v
      | none => dictLookup e k := by
  induction d with
  | nil => simp [dictLookup]
  | cons kv rest ih =>
    by_cases h1 : kv.1 == k
    · simp [dictLookup, h1]
    · simp [dictLookup, h1, ih]

theorem mem_dictInsert {α : Type} (d : List (String × α)) (k : String) (v : α)
    (kv : String × α) (h : kv ∈ dictInsert d k v) : kv ∈ d ∨ kv = (k, v) := by
  induction d with
  | nil => simp [dictInsert] at h; right; exact h
  | cons e rest ih =>
    simp only [dictInsert] at h
    by_cases h1 : e.1 == k
    · rw [if_pos h1] at h
      rcases List.mem_cons.mp h with h2 | h2
      · right; exact h2
      · left; exact List.mem_cons_of_mem e h2
    · rw [if_neg h1] at h
      rcases List.mem_cons.mp h with h2 | h2
      · left; exact h2 ▸ List.mem_cons_self e rest
      · rcases ih h2 with h3 | h3
        · left; exact List.mem_cons_of_mem e h3
        · right; exact h3

theorem dictLookup_mem {α : Type} (d : List (String × α)) (c : String) (v : α)
    (h : dictLookup d c = some v) : ∃ k2, (k2, v) ∈ d := by
  induction d with
  | nil => simp [dictLookup] at h
  | cons kv rest ih =>
    simp only [dictLookup] at h
    by_cases h1 : kv.1 == c
    · rw [if_pos h1] at h
      refine ⟨kv.1, ?_⟩
      have h2 : kv.2 = v := by simpa using h
      rw [← h2]
      simp
    · rw [if_neg h1] at h
      rcases ih h with ⟨k2, hk2⟩
      exact ⟨k2, List.mem_cons_of_mem kv hk2⟩

theorem mapFieldNamesDict_aux {α : Type} (fm : List (String × String)) :
    ∀ (d : List (String × α)) (acc : List (String × α)),
      (∀ kv ∈ d, dictLookup acc (applyFieldMap fm kv.1) = none) →
      (d.map (fun kv => applyFieldMap fm kv.1)).Nodup →
      d.foldl (fun a kv => dictInsert a (applyFieldMap fm kv.1) kv.2) acc
        = acc ++ d.map (fun kv => (applyFieldMap fm kv.1, kv.2)) := by
  intro d
  induction d with
  | nil => intro acc _ _; simp
  | cons kv rest ih =>
    intro acc hfresh hnd
    simp only [List.map, List.nodup_cons] at hnd
    have hstep : dictInsert acc (applyFieldMap fm kv.1) kv.2
        = acc ++ [(applyFieldMap fm kv.1, kv.2)] :=
      dictInsert_fresh _ _ _ (hfresh kv (List.mem_cons_self kv rest))
    simp only [List.foldl, hstep]
    rw [ih (acc ++ [(applyFieldMap fm kv.1, kv.2)]) ?_ hnd.2]
    · simp [List.append_assoc]
    · intro kv2 hkv2
      rw [dictLookup_append, hfresh kv2 (List.mem_cons_of_mem kv hkv2)]
      have hne : applyFieldMap fm kv.1 ≠ applyFieldMap fm kv2.1 := by
        intro he
        exact hnd.1 (he ▸ List.mem_map_of_mem (fun e => applyFieldMap fm e.1) hkv2)
      have hb : (applyFieldMap fm kv.1 == applyFieldMap fm kv2.1) = false := by
        simpa using hne
      show dictLookup [(applyFieldMap fm kv.1, kv.2)] (applyFieldMap fm kv2.1) = none
      simp [dictLookup, hb]

/-- When the mapped keys are pairwise distinct, `map_field_names` on a dict
is the entrywise image of the input. -/
theorem mapFieldNamesDict_nodup {α : Type} (fm : List (String × String))
    (d : List (String × α)) (hnd : (d.map (fun kv => applyFieldMap fm kv.1)).Nodup) :
    mapFieldNamesDict fm d = d.map (fun kv => (applyFieldMap fm kv.1, kv.2)) := by
  have := mapFieldNamesDict_aux fm d [] (by intro kv _; rfl) hnd
  simpa [mapFieldNamesDict] using this

theorem wellTypedD_mem (d : List (String × Value)) (h : wellTypedD d = true) :
    ∀ kv ∈ d, wellTypedV kv.2 = true := by
  intro kv hkv
  exact (List.all_eq_true.mp h) kv hkv

theorem wellTypedD_mapFieldNamesDict (fm : List (String × String))
    (d : List (String × Value)) (h : wellTypedD d = true) :
    wellTypedD (mapFieldNamesDict fm d) = true := by
  unfold mapFieldNamesDict
  have aux : ∀ (l : List (String × Value)) (acc : List (String × Value)),
      (∀ kv ∈ acc, wellTypedV kv.2 = true) →
      (∀ kv ∈ l, wellTypedV kv.2 = true) →
      ∀ kv ∈ l.foldl (fun a kv => dictInsert a (applyFieldMap fm kv.1) kv.2) acc,
        wellTypedV kv.2 = true := by
    intro l
    induction l with
    | nil => intro acc hacc _ kv hkv; exact hacc kv hkv
    | cons e rest ih =>
      intro acc hacc hl kv hkv
      refine ih (dictInsert acc (applyFieldMap fm e.1) e.2) ?_ ?_ kv hkv
      · intro kv2 hkv2
        rcases mem_dictInsert _ _ _ _ hkv2 with h2 | h2
        · exact hacc kv2 h2
        · rw [h2]; exact hl e (List.mem_cons_self e rest)
      · intro kv2 hkv2
        exact hl kv2 (List.mem_cons_of_mem e hkv2)
  exact List.all_eq_true.mpr (aux d [] (by intro kv h2; simp at h2) (wellTypedD_mem d h))

/-! ## Helper lemmas: the WHERE-building loop -/

theorem whereStep_ok (b acc : String) (kv : String × Value)
    (h : wellTypedV kv.2 = true) :
    ∃ acc2, whereStep b acc kv = Except.ok acc2 := by
  rcases kv with ⟨k1, v1⟩
  cases v1 with
  | vStr s => exact ⟨_, rfl⟩
  | vInt n => exact ⟨_, rfl⟩
  | vFloat r => exact ⟨_, rfl⟩
  | vList l => exact ⟨_, rfl⟩
  | vNone => simp [wellTypedV] at h

theorem whereFold_ok (b : String) (l : List (String × Value)) :
    ∀ (acc : String), wellTypedD l = true →
    List.foldlM (whereStep b) acc l
      = Except.ok (acc ++ sJoin (((l.map (fun kv => predsOfEntry kv.1 kv.2)).flatten).map
          (fun p => p ++ " " ++ b ++ " "))) := by
  induction l with
  | nil =>
    intro acc _
    simp only [List.map_nil, List.flatten_nil, sJoin, String.append_empty]
    rfl
  | cons kv rest ih =>
    intro acc hwt
    have hw : wellTypedV kv.2 = true ∧ wellTypedD rest = true := by
      simpa [wellTypedD] using hwt
    rw [List.foldlM_cons]
    cases hv : kv.2 with
    | vStr s =>
      have E : whereStep b acc kv
          = Except.ok (acc ++ ("[" ++ kv.1 ++ "] = '" ++ sanitiseStr s ++ "'") ++ " " ++ b ++ " ") := by
        simp [whereStep, hv]
      rw [E]
      have hbind : (Except.ok (acc ++ ("[" ++ kv.1 ++ "] = '" ++ sanitiseStr s ++ "'") ++ " " ++ b ++ " ") :
            Except String String) >>= (fun a => List.foldlM (whereStep b) a rest)
          = List.foldlM (whereStep b)
              (acc ++ ("[" ++ kv.1 ++ "] = '" ++ sanitiseStr s ++ "'") ++ " " ++ b ++ " ") rest := rfl
      rw [hbind, ih _ hw.2]
      congr 1
      simp only [List.map_cons, List.flatten_cons, hv]
      simp [predsOfEntry, sJoin, sJoin_append, List.map_append, String.append_assoc]
    | vInt n =>
      have E : whereStep b acc kv
          = Except.ok (acc ++ ("[" ++ kv.1 ++ "] = " ++ toString n) ++ " " ++ b ++ " ") := by
        simp [whereStep, hv]
      rw [E]
      have hbind : (Except.ok (acc ++ ("[" ++ kv.1 ++ "] = " ++ toString n) ++ " " ++ b ++ " ") :
            Except String String) >>= (fun a => List.foldlM (whereStep b) a rest)
          = List.foldlM (whereStep b)
              (acc ++ ("[" ++ kv.1 ++ "] = " ++ toString n) ++ " " ++ b ++ " ") rest := rfl
      rw [hbind, ih _ hw.2]
      congr 1
      simp only [List.map_cons, List.flatten_cons, hv]
      simp [predsOfEntry, sJoin, sJoin_append, List.map_append, String.append_assoc]
    | vFloat r =>
      have E : whereStep b acc kv
          = Except.ok (acc ++ ("[" ++ kv.1 ++ "] = " ++ r) ++ " " ++ b ++ " ") := by
        simp [whereStep, hv]
      rw [E]
      have hbind : (Except.ok (acc ++ ("[" ++ kv.1 ++ "] = " ++ r) ++ " " ++ b ++ " ") :
            Except String String) >>= (fun a => List.foldlM (whereStep b) a rest)
          = List.foldlM (whereStep b)
              (acc ++ ("[" ++ kv.1 ++ "] = " ++ r) ++ " " ++ b ++ " ") rest := rfl
      rw [hbind, ih _ hw.2]
      congr 1
      simp only [List.map_cons, List.flatten_cons, hv]
      simp [predsOfEntry, sJoin, sJoin_append, List.map_append, String.append_assoc]
    | vList vl =>
      have E : whereStep b acc kv
          = Except.ok (acc ++ sJoin (vl.map (fun v =>
              ("[" ++ kv.1 ++ "] = '" ++ pyStrV (sanitiseV v) ++ "'") ++ " " ++ b ++ " "))) := by
        simp [whereStep, hv]
      rw [E]
      have hbind : (Except.ok (acc ++ sJoin (vl.map (fun v =>
              ("[" ++ kv.1 ++ "] = '" ++ pyStrV (sanitiseV v) ++ "'") ++ " " ++ b ++ " "))) :
            Except String String) >>= (fun a => List.foldlM (whereStep b) a rest)
          = List.foldlM (whereStep b) (acc ++ sJoin (vl.map (fun v =>
              ("[" ++ kv.1 ++ "] = '" ++ pyStrV (sanitiseV v) ++ "'") ++ " " ++ b ++ " "))) rest := rfl
      rw [hbind, ih _ hw.2]
      congr 1
      simp only [List.map_cons, List.flatten_cons, hv, predsOfEntry, List.map_append,
        sJoin_append, List.map_map, Function.comp_def]
      rw [String.append_assoc]
    | vNone =>
      rw [hv] at hw
      simp [wellTypedV] at hw

theorem whereFold_err (b : String) (l : List (String × Value)) :
    ∀ (acc : String), l.any (fun kv => !(wellTypedV kv.2)) = true →
    ∃ k, List.foldlM (whereStep b) acc l
        = Except.error ("Unsupported value type in key " ++ k) := by
  induction l with
  | nil => intro acc h; simp at h
  | cons kv rest ih =>
    intro acc h
    by_cases hw : wellTypedV kv.2 = true
    · have h2 : rest.any (fun kv => !(wellTypedV kv.2)) = true := by
        simpa [List.any_cons, hw] using h
      obtain ⟨acc2, E⟩ := whereStep_ok b acc kv hw
      rw [List.foldlM_cons, E]
      have hbind : (Except.ok acc2 : Except String String) >>=
            (fun a => List.foldlM (whereStep b) a rest)
          = List.foldlM (whereStep b) acc2 rest := rfl
      rw [hbind]
      exact ih acc2 h2
    · have hv : kv.2 = Value.vNone := by
        cases hv2 : kv.2 with
        | vNone => rfl
        | vStr s => rw [hv2] at hw; simp [wellTypedV] at hw
        | vInt n => rw [hv2] at hw; simp [wellTypedV] at hw
        | vFloat r => rw [hv2] at hw; simp [wellTypedV] at hw
        | vList l => rw [hv2] at hw; simp [wellTypedV] at hw
      refine ⟨kv.1, ?_⟩
      rw [List.foldlM_cons]
      have E : whereStep b acc kv
          = Except.error ("Unsupported value type in key " ++ kv.1) := by
        simp [whereStep, hv]
      rw [E]
      rfl

theorem whereFold_wt_ok (b : String) (l : List (String × Value)) :
    ∀ (acc : String), wellTypedD l = true →
    ∃ q, List.foldlM (whereStep b) acc l = Except.ok q := by
  intro acc h
  exact ⟨_, whereFold_ok b l acc h⟩

/-! ## Helper lemmas: `_sanitise` -/

theorem pyReplaceAux_quote (fuel : Nat) : ∀ (l : List Char), l.length ≤ fuel →
    pyReplaceAux ['\''] ['\'', '\''] fuel l
      = l.flatMap (fun c => if c = '\'' then [c, c] else [c]) := by
  induction fuel with
  | zero =>
    intro l hl
    cases l with
    | nil => rfl
    | cons c cs => simp at hl
  | succ n ih =>
    intro l hl
    cases l with
    | nil => rfl
    | cons c cs =>
      by_cases hc : c = '\''
      · subst hc
        have hpre : List.isPrefixOf ['\''] ('\'' :: cs) = true := by
          simp [List.isPrefixOf]
        simp only [pyReplaceAux, hpre, if_true]
        have hdrop : List.drop (['\''] : List Char).length ('\'' :: cs) = cs := rfl
        rw [hdrop, ih cs (Nat.le_of_succ_le_succ (by simpa using hl))]
        simp
      · have hb : ('\'' == c) = false := by
          simpa using fun h => hc h.symm
        have hpre : List.isPrefixOf ['\''] (c :: cs) = false := by
          simp [List.isPrefixOf, hb]
        simp only [pyReplaceAux, hpre, Bool.false_eq_true, if_false]
        rw [ih cs (Nat.le_of_succ_le_succ (by simpa using hl))]
        simp [hc]

theorem sanitiseStr_eq (s : String) :
    sanitiseStr s
      = String.mk (s.data.flatMap (fun c => if c = '\'' then [c, c] else [c])) := by
  unfold sanitiseStr pyReplaceStr
  rw [if_neg (by decide)]
  exact congrArg String.mk (pyReplaceAux_quote s.data.length s.data (le_refl _))

theorem flatMapDup_count (l : List Char) :
    (l.flatMap (fun c => if c = '\'' then [c, c] else [c])).count '\''
      = 2 * l.count '\'' := by
  induction l with
  | nil => rfl
  | cons c cs ih =>
    rw [List.flatMap_cons, List.count_append, ih, List.count_cons]
    by_cases hc : c = '\''
    · subst hc
      rw [if_pos rfl]
      have h1 : List.count '\'' ['\'', '\''] = 2 := rfl
      rw [h1]
      have h2 : (('\'' : Char) == '\'') = true := rfl
      rw [h2, if_pos rfl]
      omega
    · rw [if_neg hc]
      have hb : (c == '\'') = false := by simpa using hc
      have h1 : List.count '\'' [c] = 0 := by
        rw [List.count_cons, hb]
        simp
      rw [h1, hb]
      simp

theorem flatMapDup_filter (l : List Char) :
    (l.flatMap (fun c => if c = '\'' then [c, c] else [c])).filter (fun c => !(c == '\''))
      = l.filter (fun c => !(c == '\'')) := by
  induction l with
  | nil => rfl
  | cons c cs ih =>
    by_cases hc : c = '\''
    · subst hc
      simp [List.flatMap_cons, List.filter_append, ih]
    · have hb : (c == '\'') = false := by simpa using hc
      simp [List.flatMap_cons, hc, List.filter_append, List.filter_cons, hb, ih]

theorem sanitiseL_map (l : List Value) : sanitiseL l = l.map sanitiseV := by
  induction l with
  | nil => rfl
  | cons v vs ih => simp [sanitiseL, ih]

/-! ## Helper lemmas: the empty-result columns dict -/

theorem emptyColsDict_aux : ∀ (cols : List String) (acc : List (String × List Value)),
    (∀ kv ∈ acc, kv.2 = []) →
    ∀ c, (c ∈ cols ∨ (dictLookup acc c).isSome = true) →
    dictLookup (cols.foldl (fun d c2 => dictInsert d c2 []) acc) c = some [] := by
  intro cols
  induction cols with
  | nil =>
    intro acc hacc c hc
    rcases hc with h | h
    · simp at h
    · simp only [List.foldl]
      cases hl : dictLookup acc c with
      | none => rw [hl] at h; simp at h
      | some v =>
        obtain ⟨k2, hk2⟩ := dictLookup_mem acc c v hl
        have hv : v = [] := hacc (k2, v) hk2
        rw [hv]
  | cons c0 rest ih =>
    intro acc hacc c hc
    simp only [List.foldl]
    apply ih
    · intro kv hkv
      rcases mem_dictInsert _ _ _ _ hkv with h | h
      · exact hacc kv h
      · rw [h]
    · rcases hc with h | h
      · rcases List.mem_cons.mp h with h2 | h2
        · right
          subst h2
          rw [dictLookup_insert]
          simp
        · left
          exact h2
      · right
        rw [dictLookup_insert]
        cases hb : (c0 == c) with
        | true => simp
        | false => simpa [hb] using h

/-! ## Helper lemmas: operation sequences -/

theorem runOps_field_map (exec : String → List (List Value)) (schema : List String) :
    ∀ (ops : List Op) (w : World), (∀ op ∈ ops, isDefineOp op = false) →
    (runOps exec schema w ops).tc.field_map = w.tc.field_map := by
  intro ops
  induction ops with
  | nil => intro w _; rfl
  | cons op rest ih =>
    intro w h
    have h1 := h op (List.mem_cons_self op rest)
    have h2 : ∀ op2 ∈ rest, isDefineOp op2 = false :=
      fun op2 hm => h op2 (List.mem_cons_of_mem op hm)
    show (runOps exec schema (stepOp exec schema w op) rest).tc.field_map = _
    rw [ih (stepOp exec schema w op) h2]
    cases op with
    | opSetDb d => rfl
    | opSetTable t => rfl
    | opDefineFieldMap m => simp [isDefineOp] at h1
    | opInsert a k => rfl
    | opFilter f r rc b dist => rfl

/-! ## Claims -/

/-- Claim C3: `_sanitise` turns a string with k single quotes into one with
2k single quotes, doubling each quote in place and leaving every other
character unchanged; on a list it applies itself element-wise; on any other
value (int, float, anything else) it is the identity. -/
theorem c3_sanitise_spec :
    (∀ s : String, sanitiseV (Value.vStr s)
        = Value.vStr (String.mk (s.data.flatMap (fun c => if c = '\'' then [c, c] else [c]))))
    ∧ (∀ s : String, (sanitiseStr s).data.count '\'' = 2 * s.data.count '\'')
    ∧ (∀ s : String, (sanitiseStr s).data.filter (fun c => !(c == '\''))
        = s.data.filter (fun c => !(c == '\'')))
    ∧ (∀ l : List Value, sanitiseV (Value.vList l) = Value.vList (l.map sanitiseV))
    ∧ (∀ n : Int, sanitiseV (Value.vInt n) = Value.vInt n)
    ∧ (∀ r : String, sanitiseV (Value.vFloat r) = Value.vFloat r)
    ∧ sanitiseV Value.vNone = Value.vNone := by
  refine ⟨?_, ?_, ?_, ?_, fun n => rfl, fun r => rfl, rfl⟩
  · intro s
    show Value.vStr (sanitiseStr s) = _
    rw [sanitiseStr_eq]
  · intro s
    rw [sanitiseStr_eq]
    exact flatMapDup_count s.data
  · intro s
    rw [sanitiseStr_eq]
    exact flatMapDup_filter s.data
  · intro l
    show Value.vList (sanitiseL l) = _
    rw [sanitiseL_map]

/-- Claim C4 counterexample: with field map `{a: x, b: x}` the dict input
`{a: 1, b: 2}` is NOT mapped entrywise — the second mapped entry overwrites
the first because both names map to the same column, so the result is
`{x: 2}`, not the entrywise image. -/
theorem c4_map_collision_counterexample :
    mapFieldNamesDict [("a", "x"), ("b", "x")] [("a", Value.vInt 1), ("b", Value.vInt 2)]
        = [("x", Value.vInt 2)]
    ∧ mapFieldNamesDict [("a", "x"), ("b", "x")] [("a", Value.vInt 1), ("b", Value.vInt 2)]
        ≠ [("a", Value.vInt 1), ("b", Value.vInt 2)].map
            (fun kv => (applyFieldMap [("a", "x"), ("b", "x")] kv.1, kv.2)) := by
  have h1 : mapFieldNamesDict [("a", "x"), ("b", "x")]
      [("a", Value.vInt 1), ("b", Value.vInt 2)] = [("x", Value.vInt 2)] := rfl
  refine ⟨h1, ?_⟩
  rw [h1]
  intro h
  have hl := congrArg List.length h
  simp at hl

/-- Claim C4 (amended): `map_field_names` replaces a single name through the
field map with identity fallback; maps a list entrywise; maps a dict
entrywise provided no two input names are sent to the same output name
(otherwise later entries overwrite earlier ones); and with an empty field
map all three shapes are returned unchanged. -/
theorem c4_map_field_names_shape :
    (∀ (fm : List (String × String)) (n v : String),
        dictLookup fm n = some v → mapFieldNamesStr fm n = v)
    ∧ (∀ (fm : List (String × String)) (n : String),
        dictLookup fm n = none → mapFieldNamesStr fm n = n)
    ∧ (∀ (fm : List (String × String)) (l : List String),
        mapFieldNamesList fm l = l.map (applyFieldMap fm))
    ∧ (∀ (fm : List (String × String)) (d : List (String × Value)),
        (d.map (fun kv => applyFieldMap fm kv.1)).Nodup →
        mapFieldNamesDict fm d = d.map (fun kv => (applyFieldMap fm kv.1, kv.2)))
    ∧ (∀ n : String, mapFieldNamesStr [] n = n)
    ∧ (∀ l : List String, mapFieldNamesList [] l = l)
    ∧ (∀ d : List (String × Value), (d.map (fun kv => kv.1)).Nodup →
        mapFieldNamesDict [] d = d) := by
  refine ⟨?_, ?_, fun fm l => rfl, ?_, fun n => rfl, ?_, ?_⟩
  · intro fm n v h
    unfold mapFieldNamesStr applyFieldMap
    rw [h]
  · intro fm n h
    unfold mapFieldNamesStr applyFieldMap
    rw [h]
  · exact fun fm d h => mapFieldNamesDict_nodup fm d h
  · intro l
    unfold mapFieldNamesList
    rw [show (applyFieldMap [] : String → String) = fun k => k from funext (fun k => rfl)]
    exact List.map_id' l
  · intro d h
    have he : (d.map (fun kv => applyFieldMap [] kv.1)) = d.map (fun kv => kv.1) := rfl
    rw [mapFieldNamesDict_nodup [] d (he ▸ h)]
    rw [show (fun (kv : String × Value) => (applyFieldMap [] kv.1, kv.2))
        = fun kv => kv from funext (fun kv => rfl)]
    exact List.map_id' d

/-- Claim C4 witness at concrete inputs. -/
theorem c4_map_field_names_shape_witness :
    mapFieldNamesStr [("Original name", "original_name")] "Original name" = "original_name"
    ∧ mapFieldNamesDict [("Original name", "original_name")]
        [("Original name", Value.vInt 1), ("#", Value.vInt 2)]
        = [("original_name", Value.vInt 1), ("#", Value.vInt 2)]
    ∧ mapFieldNamesDict [] [("a", Value.vInt 1)] = [("a", Value.vInt 1)] := by
  refine ⟨?_, ?_, ?_⟩
  · exact c4_map_field_names_shape.1 [("Original name", "original_name")]
      "Original name" "original_name" (by decide)
  · exact (c4_map_field_names_shape.2.2.2.1 [("Original name", "original_name")]
      [("Original name", Value.vInt 1), ("#", Value.vInt 2)] (by decide)).trans rfl
  · exact c4_map_field_names_shape.2.2.2.2.2.2 [("a", Value.vInt 1)] (by decide)

/-- Claim C5: shaping a zero-row result with shape `columns` raises no error
and returns a mapping in which every wildcard-resolved return field is a key
bound to the empty sequence. -/
theorem c5_columns_empty_result (rcs schema : List String) :
    shapeResult "columns" (resolveWildcard rcs schema) []
        = Except.ok (Shaped.columns (emptyColumnsDict (resolveWildcard rcs schema)))
    ∧ ∀ c ∈ resolveWildcard rcs schema,
        dictLookup (emptyColumnsDict (resolveWildcard rcs schema)) c = some [] := by
  constructor
  · rfl
  · intro c hc
    exact emptyColsDict_aux (resolveWildcard rcs schema) []
      (by intro kv h; simp at h) c (Or.inl hc)

/-- Claim C5 witness at concrete inputs. -/
theorem c5_columns_empty_result_witness :
    shapeResult "columns" (resolveWildcard ["*"] ["id", "name", "value"]) []
        = Except.ok (Shaped.columns (emptyColumnsDict (resolveWildcard ["*"] ["id", "name", "value"])))
    ∧ dictLookup (emptyColumnsDict (resolveWildcard ["*"] ["id", "name", "value"])) "id"
        = some [] :=
  ⟨(c5_columns_empty_result ["*"] ["id", "name", "value"]).1,
   (c5_columns_empty_result ["*"] ["id", "name", "value"]).2 "id" (by decide)⟩

/-- Claim C6: against a table whose schema columns are `[id, name, value]`,
filtering with return fields `["*"]` yields the same shaped result as with
`["id", "name", "value"]` explicitly, for every table content, every WHERE
predicate denotation of a filter spec, every DISTINCT flag and every shape
token (valid or not). -/
theorem c6_wildcard_equivalence (tableRows : List (List Value))
    (keep : List Value → Bool) (distinct : Bool) (rc : String) :
    semFilter ["id", "name", "value"] tableRows keep distinct [] (StrOrList.many ["*"]) rc
      = semFilter ["id", "name", "value"] tableRows keep distinct []
          (StrOrList.many ["id", "name", "value"]) rc := rfl

/-- Claim C7: `insert` called with both positional and named arguments
raises the ambiguous-input ValueError and executes no statement. -/
theorem c7_insert_ambiguous_error (table : String) (fm : List (String × String))
    (args : List Value) (kwargs : List (String × Value))
    (ha : args ≠ []) (hk : kwargs ≠ []) :
    insertQuery table fm args kwargs
        = Except.error "Field map cannot be defined by both order and name"
    ∧ insertExec table fm args kwargs = [] := by
  have h1 : (args.length > 0 && kwargs.length > 0) = true := by
    cases args with
    | nil => exact absurd rfl ha
    | cons a as =>
      cases kwargs with
      | nil => exact absurd rfl hk
      | cons k ks => simp
  have hq : insertQuery table fm args kwargs
      = Except.error "Field map cannot be defined by both order and name" := by
    unfold insertQuery
    rw [if_pos h1]
  refine ⟨hq, ?_⟩
  unfold insertExec
  rw [hq]

/-- Claim C7 witness at concrete inputs. -/
theorem c7_insert_ambiguous_error_witness :
    insertQuery "t" [] [Value.vInt 1] [("a", Value.vInt 2)]
        = Except.error "Field map cannot be defined by both order and name"
    ∧ insertExec "t" [] [Value.vInt 1] [("a", Value.vInt 2)] = [] :=
  c7_insert_ambiguous_error "t" [] [Value.vInt 1] [("a", Value.vInt 2)]
    (List.cons_ne_nil _ _) (List.cons_ne_nil _ _)

/-- Claim C9: the field map, once set, is untouched by any sequence of
set_db, set_table, insert and filter operations, and is replaced exactly by
define_field_map. -/
theorem c9_field_map_frame (exec : String → List (List Value)) (schema : List String)
    (w : World) (ops : List Op) (h : ∀ op ∈ ops, isDefineOp op = false) :
    (runOps exec schema w ops).tc.field_map = w.tc.field_map
    ∧ ∀ m, (stepOp exec schema w (Op.opDefineFieldMap m)).tc.field_map = m :=
  ⟨runOps_field_map exec schema ops w h, fun _ => rfl⟩

/-- Claim C9 witness: a concrete run over all four non-defining operations. -/
theorem c9_field_map_frame_witness :
    (runOps (fun _ => []) [] ⟨⟨"db", "t", false, [("a", "b")]⟩, []⟩
        [Op.opSetDb "db2", Op.opSetTable "t2",
         Op.opInsert [] [("f", Value.vInt 1)],
         Op.opFilter [("f", Value.vInt 1)] (StrOrList.many ["*"]) "rows" "AND" true]).tc.field_map
      = [("a", "b")] :=
  (c9_field_map_frame (fun _ => []) [] ⟨⟨"db", "t", false, [("a", "b")]⟩, []⟩
    [Op.opSetDb "db2", Op.opSetTable "t2",
     Op.opInsert [] [("f", Value.vInt 1)],
     Op.opFilter [("f", Value.vInt 1)] (StrOrList.many ["*"]) "rows" "AND" true]
    (by intro op hop; fin_cases hop <;> rfl)).1

/-! ## Support lemmas for the insert/filter statement-shape claims -/

theorem pySliceComma (x : String) : pySliceToNeg 1 (x ++ ",") = x :=
  pySliceToNeg_append x "," (by decide)

theorem pySliceComma2 (x y : String) : pySliceToNeg 1 (x ++ (y ++ ",")) = x ++ y := by
  rw [← String.append_assoc]
  exact pySliceComma (x ++ y)

theorem sJoin_map_comma {α : Type} (h : α → String) (l : List α) (hne : l ≠ []) :
    sJoin (l.map (fun x => h x ++ ",")) = sIntercalate "," (l.map h) ++ "," := by
  have e1 : l.map (fun x => h x ++ ",") = (l.map h).map (fun s => s ++ ",") :=
    (List.map_map (fun s => s ++ ",") h l).symm
  rw [e1, sJoin_map_sep "," (l.map h) ?_]
  intro hmap
  exact hne (by simpa using hmap)

theorem headNonWS_selectPart (table : String) (rcm : List String) (distinct : Bool) :
    headNonWS (selectPart table rcm distinct) = true := by
  unfold selectPart
  repeat apply headNonWS_append
  decide

theorem wherePreds_length (fm : List (String × String)) (filters : List (String × Value))
    (hwt : wellTypedD filters = true) :
    (wherePreds fm filters).length = predCount filters := by
  have aux : ∀ (fl : List (String × Value)), wellTypedD fl = true →
      (wherePreds fm fl).length = predCount fl := by
    intro fl
    induction fl with
    | nil => intro _; rfl
    | cons kv rest ih =>
      intro hwt2
      have hw : wellTypedV kv.2 = true ∧ wellTypedD rest = true := by
        simpa [wellTypedD] using hwt2
      have htail := ih hw.2
      unfold wherePreds predCount at htail ⊢
      simp only [List.map_cons, List.flatten_cons, List.length_append, List.sum_cons]
      rw [htail]
      have hhead : (predsOfEntry (applyFieldMap fm kv.1) kv.2).length
          = (match kv.2 with
             | Value.vList l => l.length
             | _ => 1) := by
        cases hv : kv.2 with
        | vStr s => rfl
        | vInt n => rfl
        | vFloat r => rfl
        | vList l => simp [predsOfEntry]
        | vNone =>
          rw [hv] at hw
          simp [wellTypedV] at hw
      rw [hhead]
  exact aux filters hwt

theorem shapeResult_invalid (rc : String) (cols : List String) (results : List (List Value))
    (h1 : rc ≠ "columns") (h2 : rc ≠ "rows") (h3 : rc ≠ "rowdict") :
    shapeResult rc cols results
      = Except.error "Invalid shape specified. rc must be one of 'rows' or 'columns'." := by
  unfold shapeResult
  rw [if_neg h1, if_neg h2, if_neg h3]

/-- Claim C1 counterexample: in the spec's own scenario the generated INSERT
quotes the integer — the value list is `'Foo','3'`, not `'Foo', 3` (and the
columns are joined with a bare comma), because `_quote` wraps every `%s`
rendering in single quotes. -/
theorem c1_insert_quotes_integer_counterexample :
    queryInsertKwargs "renames" [("Original name", "original_name"), ("#", "number")]
        [("Original name", Value.vStr "Foo"), ("#", Value.vInt 3)]
      = "INSERT INTO renames ([original_name],[number]) VALUES ('Foo','3')"
    ∧ queryInsertKwargs "renames" [("Original name", "original_name"), ("#", "number")]
        [("Original name", Value.vStr "Foo"), ("#", Value.vInt 3)]
      ≠ "INSERT INTO renames ([original_name], [number]) VALUES ('Foo', 3)"
    ∧ queryInsertKwargs "renames" [("Original name", "original_name"), ("#", "number")]
        [("Original name", Value.vStr "Foo"), ("#", Value.vInt 3)]
      ≠ "INSERT INTO renames ([original_name],[number]) VALUES ('Foo',3)" := by
  refine ⟨rfl, ?_, ?_⟩ <;> decide

/-- Claim C1 (amended): for a non-empty named-field insert whose mapped
column names are pairwise distinct, the generated statement lists the
bracketed mapped column names joined by bare commas and the values joined by
bare commas, both in the iteration order of the supplied mapping (never
re-sorted), with EVERY value — numeric as well as string — sanitised and
enclosed in single quotes. -/
theorem c1_insert_kwargs_query_shape (table : String) (fm : List (String × String))
    (kwargs : List (String × Value)) (hk : kwargs ≠ [])
    (hnd : (kwargs.map (fun kv => applyFieldMap fm kv.1)).Nodup) :
    queryInsertKwargs table fm kwargs
      = "INSERT INTO " ++ table ++ " ("
        ++ sIntercalate "," (kwargs.map (fun kv => bracketS (applyFieldMap fm kv.1)))
        ++ ") "
        ++ "VALUES ("
        ++ sIntercalate "," (kwargs.map (fun kv => quoteV (sanitiseV kv.2)))
        ++ ")" := by
  simp only [queryInsertKwargs]
  rw [mapFieldNamesDict_nodup fm kwargs hnd]
  rw [foldl_acc_two (fun kv : String × Value => bracketS kv.1) (fun _ => ","),
      foldl_acc_two (fun kv : String × Value => quoteV (sanitiseV kv.2)) (fun _ => ",")]
  rw [show (kwargs.map (fun kv => (applyFieldMap fm kv.1, kv.2))).map
        (fun kv => bracketS kv.1 ++ ",")
      = kwargs.map (fun kv => bracketS (applyFieldMap fm kv.1) ++ ",") from by
    rw [List.map_map]
    rfl]
  rw [show (kwargs.map (fun kv => (applyFieldMap fm kv.1, kv.2))).map
        (fun kv => quoteV (sanitiseV kv.2) ++ ",")
      = kwargs.map (fun kv => quoteV (sanitiseV kv.2) ++ ",") from by
    rw [List.map_map]
    rfl]
  rw [sJoin_map_comma (fun kv => bracketS (applyFieldMap fm kv.1)) kwargs hk,
      sJoin_map_comma (fun kv => quoteV (sanitiseV kv.2)) kwargs hk]
  rw [pySliceComma2, pySliceComma2]
  simp only [← String.append_assoc]

/-- Claim C1 witness: the scenario insert, with the integer quoted. -/
theorem c1_insert_kwargs_query_shape_witness :
    queryInsertKwargs "renames" [("Original name", "original_name"), ("#", "number")]
        [("Original name", Value.vStr "Foo"), ("#", Value.vInt 3)]
      = "INSERT INTO renames ([original_name],[number]) VALUES ('Foo','3')" :=
  (c1_insert_kwargs_query_shape "renames"
      [("Original name", "original_name"), ("#", "number")]
      [("Original name", Value.vStr "Foo"), ("#", Value.vInt 3)]
      (List.cons_ne_nil _ _) (by decide)).trans rfl

/-- Claim C2: for a non-empty well-typed filter spec (at least one predicate
emitted; no key collisions under the field map; join keyword non-empty with
no trailing whitespace, e.g. the default AND), the generated statement is
the SELECT part followed by `WHERE` and the equality predicates in emission
order, with exactly one boolean-join keyword between each adjacent pair of
predicates and none after the last (the loop's trailing keyword is trimmed,
leaving one trailing space); the number of predicates equals the number of
scalar entries plus the total length of list entries. -/
theorem c2_filter_where_clause_shape (table : String) (fm : List (String × String))
    (filters : List (String × Value)) (rcs : StrOrList) (boolean : String) (distinct : Bool)
    (hne : wherePreds fm filters ≠ [])
    (hnd : (filters.map (fun kv => applyFieldMap fm kv.1)).Nodup)
    (hwt : wellTypedD filters = true)
    (hb : lastNonWS boolean = true) :
    buildFilterQueryRaw table fm filters rcs boolean distinct
      = Except.ok (selectPart table (mapFieldNamesList fm (coerceCols rcs)) distinct
          ++ "WHERE " ++ sIntercalate (" " ++ boolean ++ " ") (wherePreds fm filters) ++ " ")
    ∧ (wherePreds fm filters).length = predCount filters := by
  refine ⟨?_, wherePreds_length fm filters hwt⟩
  have hfne : filters ≠ [] := by
    intro h0
    rw [h0] at hne
    exact hne rfl
  have hmap := mapFieldNamesDict_nodup fm filters hnd
  simp only [buildFilterQueryRaw]
  rw [hmap]
  have hie : ¬((filters.map (fun kv => (applyFieldMap fm kv.1, kv.2))).isEmpty = true) := by
    cases filters with
    | nil => exact absurd rfl hfne
    | cons a as => simp [List.isEmpty]
  rw [if_neg hie]
  have hwt2 : wellTypedD (filters.map (fun kv => (applyFieldMap fm kv.1, kv.2))) = true := by
    simpa [wellTypedD, List.all_map, Function.comp_def] using hwt
  rw [whereFold_ok boolean _ _ hwt2]
  have hflat : ((filters.map (fun kv => (applyFieldMap fm kv.1, kv.2))).map
      (fun kv => predsOfEntry kv.1 kv.2)).flatten = wherePreds fm filters := by
    unfold wherePreds
    rw [List.map_map]
    rfl
  rw [hflat]
  have hsep : (wherePreds fm filters).map (fun p => p ++ " " ++ boolean ++ " ")
      = (wherePreds fm filters).map (fun p => p ++ (" " ++ boolean ++ " ")) :=
    List.map_congr_left (fun p _ => by
      simp only [String.append_assoc])
  rw [hsep, sJoin_map_sep (" " ++ boolean ++ " ") (wherePreds fm filters) hne]
  refine congrArg Except.ok ?_
  have hassoc : (selectPart table (mapFieldNamesList fm (coerceCols rcs)) distinct ++ "WHERE ")
        ++ (sIntercalate (" " ++ boolean ++ " ") (wherePreds fm filters)
            ++ (" " ++ boolean ++ " "))
      = ((selectPart table (mapFieldNamesList fm (coerceCols rcs)) distinct
          ++ "WHERE " ++ sIntercalate (" " ++ boolean ++ " ") (wherePreds fm filters) ++ " ")
          ++ boolean) ++ " " := by
    simp only [String.append_assoc]
  rw [hassoc]
  have hX : headNonWS (selectPart table (mapFieldNamesList fm (coerceCols rcs)) distinct
      ++ "WHERE " ++ sIntercalate (" " ++ boolean ++ " ") (wherePreds fm filters) ++ " ")
      = true := by
    apply headNonWS_append
    apply headNonWS_append
    apply headNonWS_append
    exact headNonWS_selectPart table (mapFieldNamesList fm (coerceCols rcs)) distinct
  rw [pyStripStr_append_sep _ boolean hX hb]
  exact pySliceToNeg_append _ boolean (lastNonWS_ne_empty boolean hb)

/-- Claim C2 witness: two scalar int filters under AND give exactly one
keyword between the two predicates and none trailing. -/
theorem c2_filter_where_clause_shape_witness :
    buildFilterQueryRaw "t" [] [("a", Value.vInt 1), ("b", Value.vInt 2)]
        (StrOrList.many ["c"]) "AND" true
      = Except.ok "SELECT DISTINCT [c] FROM t WHERE [a] = 1 AND [b] = 2 "
    ∧ (wherePreds [] [("a", Value.vInt 1), ("b", Value.vInt 2)]).length
      = predCount [("a", Value.vInt 1), ("b", Value.vInt 2)] := by
  have h := c2_filter_where_clause_shape "t" [] [("a", Value.vInt 1), ("b", Value.vInt 2)]
    (StrOrList.many ["c"]) "AND" true (by decide) (by decide) (by decide) (by decide)
  exact ⟨h.1.trans rfl, h.2⟩

/-- Claim C8: a filter spec containing a value that is not a string, list,
int or float (and whose keys are not merged away by the field map) makes the
filter query builder raise the unsupported-value-type ValueError rather than
coercing the value. -/
theorem c8_filter_unsupported_value_error (table : String) (fm : List (String × String))
    (filters : List (String × Value)) (rcs : StrOrList) (boolean : String) (distinct : Bool)
    (hnd : (filters.map (fun kv => applyFieldMap fm kv.1)).Nodup)
    (hbad : filters.any (fun kv => !(wellTypedV kv.2)) = true) :
    ∃ k, buildFilterQueryRaw table fm filters rcs boolean distinct
        = Except.error ("Unsupported value type in key " ++ k) := by
  have hfne : filters ≠ [] := by
    intro h0
    rw [h0] at hbad
    simp at hbad
  have hmap := mapFieldNamesDict_nodup fm filters hnd
  have hbad2 : (filters.map (fun kv => (applyFieldMap fm kv.1, kv.2))).any
      (fun kv => !(wellTypedV kv.2)) = true := by
    simpa [List.any_map, Function.comp_def] using hbad
  obtain ⟨k, hk⟩ := whereFold_err boolean
    (filters.map (fun kv => (applyFieldMap fm kv.1, kv.2)))
    (selectPart table (mapFieldNamesList fm (coerceCols rcs)) distinct ++ "WHERE ") hbad2
  refine ⟨k, ?_⟩
  simp only [buildFilterQueryRaw]
  rw [hmap]
  have hie : ¬((filters.map (fun kv => (applyFieldMap fm kv.1, kv.2))).isEmpty = true) := by
    cases filters with
    | nil => exact absurd rfl hfne
    | cons a as => simp [List.isEmpty]
  rw [if_neg hie, hk]

/-- Claim C8 witness: a `None`-valued filter entry raises the error. -/
theorem c8_filter_unsupported_value_error_witness :
    buildFilterQueryRaw "t" [] [("a", Value.vNone)] (StrOrList.many ["c"]) "AND" true
      = Except.error "Unsupported value type in key a" := by
  obtain ⟨k, hk⟩ := c8_filter_unsupported_value_error "t" [] [("a", Value.vNone)]
    (StrOrList.many ["c"]) "AND" true (by decide) (by decide)
  have h2 : buildFilterQueryRaw "t" [] [("a", Value.vNone)] (StrOrList.many ["c"]) "AND" true
      = Except.error "Unsupported value type in key a" := rfl
  have h3 := hk.symm.trans h2
  injection h3 with h4


/-- Claim C10: with a well-typed filter spec and a shape token outside
columns/rows/rowdict, the SELECT statement is still built and executed (and
one PRAGMA runs per wildcard return column) before the invalid-shape
ValueError is raised: the error follows the execution side effect instead of
replacing it. -/
theorem c10_invalid_shape_after_execute (tc : TableCon) (exec : String → List (List Value))
    (schema : List String) (filters : List (String × Value)) (rcs : StrOrList)
    (rc boolean : String) (distinct : Bool)
    (h1 : rc ≠ "columns") (h2 : rc ≠ "rows") (h3 : rc ≠ "rowdict")
    (hwt : wellTypedD filters = true) :
    ∃ q, buildFilterQuery tc.table tc.field_map filters rcs boolean distinct = Except.ok q
      ∧ filterRun tc exec schema filters rcs rc boolean distinct
        = (q :: ((mapFieldNamesList tc.field_map (coerceCols rcs)).filter
              (fun c => c == "*")).map (fun _ => pragmaQuery tc.table),
           Except.error "Invalid shape specified. rc must be one of 'rows' or 'columns'.") := by
  have hraw : ∃ q0, buildFilterQueryRaw tc.table tc.field_map filters rcs boolean distinct
      = Except.ok q0 := by
    simp only [buildFilterQueryRaw]
    by_cases hie : (mapFieldNamesDict tc.field_map filters).isEmpty = true
    · rw [if_pos hie]
      exact ⟨_, rfl⟩
    · rw [if_neg hie]
      have hwt2 : wellTypedD (mapFieldNamesDict tc.field_map filters) = true :=
        wellTypedD_mapFieldNamesDict _ _ hwt
      obtain ⟨q1, hq1⟩ := whereFold_wt_ok boolean (mapFieldNamesDict tc.field_map filters)
        (selectPart tc.table (mapFieldNamesList tc.field_map (coerceCols rcs)) distinct
          ++ "WHERE ") hwt2
      rw [hq1]
      exact ⟨_, rfl⟩
  obtain ⟨q0, hq0⟩ := hraw
  have hbq : buildFilterQuery tc.table tc.field_map filters rcs boolean distinct
      = Except.ok (pyReplaceStr "[*]" "*" q0) := by
    simp only [buildFilterQuery]
    rw [hq0]
  refine ⟨pyReplaceStr "[*]" "*" q0, hbq, ?_⟩
  simp only [filterRun, hbq]
  rw [shapeResult_invalid rc _ _ h1 h2 h3]

/-- Claim C10 witness: an invalid shape token still executes the SELECT and
the wildcard PRAGMA before the error. -/
theorem c10_invalid_shape_after_execute_witness :
    filterRun ⟨"db", "t", false, []⟩ (fun _ => []) ["id"] [] (StrOrList.many ["*"])
        "bogus" "AND" true
      = (["SELECT DISTINCT * FROM t ", "PRAGMA table_info(t)"],
         Except.error "Invalid shape specified. rc must be one of 'rows' or 'columns'.") := by
  obtain ⟨q, hq, hrun⟩ := c10_invalid_shape_after_execute ⟨"db", "t", false, []⟩
    (fun _ => []) ["id"] [] (StrOrList.many ["*"]) "bogus" "AND" true
    (by decide) (by decide) (by decide) (by decide)
  have h2 : buildFilterQuery "t" [] [] (StrOrList.many ["*"]) "AND" true
      = Except.ok "SELECT DISTINCT * FROM t " := rfl
  have h3 := hq.symm.trans h2
  injection h3 with h4
  rw [h4] at hrun
  refine hrun.trans ?_
  exact congrArg
    (fun l => (l, (Except.error "Invalid shape specified. rc must be one of 'rows' or 'columns'." :
      Except String Shaped)))
    (by decide)
